import Mathlib

/-!
Verification of the Symbolic Function Engine of slidy-plotty-graphy
(`functions.py`, `plotty_animation.py`) via a shallow embedding.

Expressions are modelled as a sympy-like tree: `Add`/`Mul` are n-ary
(sympy keeps flattened argument lists), `Pow` is binary, function
applications (`sin`, `cos`, `sinh`, `tan`, ...) are a name applied to an
argument, and `Piecewise((v, Ne(a, b)), (w, True))` — the only piecewise
shape produced by the code paths under study — is `piecewiseNe v a b w`.
-/
inductive SymExpr where
  | sym : String → SymExpr
  | num : ℚ → SymExpr
  | piConst : SymExpr
  | add : List SymExpr → SymExpr
  | mul : List SymExpr → SymExpr
  | pow : SymExpr → SymExpr → SymExpr
  | fn : String → SymExpr → SymExpr
  | piecewiseNe : SymExpr → SymExpr → SymExpr → SymExpr → SymExpr
  deriving Repr

namespace SymExpr

mutual

/-- Structural equality test, sympy's `==` on expression trees (sympy trees
are canonical, so structural equality is what `==` and the interpreter's
`is` on cached atoms decide). -/
def beq : SymExpr → SymExpr → Bool
  | sym s, sym t => s == t
  | num p, num q => p == q
  | piConst, piConst => true
  | add l, add m => beqList l m
  | mul l, mul m => beqList l m
  | pow a b, pow c d => beq a c && beq b d
  | fn f a, fn g b => f == g && beq a b
  | piecewiseNe a b c d, piecewiseNe x y z w =>
      beq a x && beq b y && beq c z && beq d w
  | _, _ => false

def beqList : List SymExpr → List SymExpr → Bool
  | [], [] => true
  | a :: as_, b :: bs => beq a b && beqList as_ bs
  | _, _ => false

end

instance : BEq SymExpr := ⟨beq⟩

/-- `expr.args` of sympy: the immediate sub-expressions of a node. -/
def args : SymExpr → List SymExpr
  | sym _ => []
  | num _ => []
  | piConst => []
  | add l => l
  | mul l => l
  | pow b e => [b, e]
  | fn _ a => [a]
  | piecewiseNe v a b w => [v, a, b, w]

mutual

/-- Number of nodes of the expression tree. -/
def size : SymExpr → Nat
  | sym _ => 1
  | num _ => 1
  | piConst => 1
  | add l => 1 + sizeList l
  | mul l => 1 + sizeList l
  | pow b e => 1 + size b + size e
  | fn _ a => 1 + size a
  | piecewiseNe v a b w => 1 + size v + size a + size b + size w

def sizeList : List SymExpr → Nat
  | [] => 0
  | e :: es => size e + sizeList es

end

mutual

/-- `expr.has(Symbol v)` of sympy for a bare symbol: whether the symbol
named `v` occurs anywhere in the tree. -/
def occurs (v : String) : SymExpr → Bool
  | sym s => v == s
  | num _ => false
  | piConst => false
  | add l => occursList v l
  | mul l => occursList v l
  | pow b e => occurs v b || occurs v e
  | fn _ a => occurs v a
  | piecewiseNe x a b w =>
      occurs v x || occurs v a || occurs v b || occurs v w

def occursList (v : String) : List SymExpr → Bool
  | [] => false
  | e :: es => occurs v e || occursList v es

end

mutual

/-- All symbol names of the tree, in leftmost-first traversal order
(with repetitions; deduplicated by `freeSymbols`). -/
def collectSyms : SymExpr → List String
  | sym s => [s]
  | num _ => []
  | piConst => []
  | add l => collectSymsList l
  | mul l => collectSymsList l
  | pow b e => collectSyms b ++ collectSyms e
  | fn _ a => collectSyms a
  | piecewiseNe x a b w =>
      collectSyms x ++ collectSyms a ++ collectSyms b ++ collectSyms w

def collectSymsList : List SymExpr → List String
  | [] => []
  | e :: es => collectSyms e ++ collectSymsList es

end

/-- Remove later duplicates, keeping the first occurrence of each name. -/
def dedupFirst : List String → List String
  | [] => []
  | s :: ss => s :: (dedupFirst ss).filter (fun t => t ≠ s)

/-- `expr.free_symbols` of sympy, turned into a list (`list(symbol_set)` in
`FunctionRtoR.__init__`).  sympy returns a Python set whose enumeration
order is unspecified; this embedding fixes one concrete enumeration (first
occurrence order).  No theorem below depends on the enumeration order. -/
def freeSymbols (e : SymExpr) : List String := dedupFirst (collectSyms e)

mutual

/-- All sub-expressions of a tree (the tree itself included): the nodes
visited by sympy's `preorder_traversal`. -/
def subExprs : SymExpr → List SymExpr
  | sym s => [sym s]
  | num q => [num q]
  | piConst => [piConst]
  | add l => add l :: subExprsList l
  | mul l => mul l :: subExprsList l
  | pow b e => pow b e :: (subExprs b ++ subExprs e)
  | fn f a => fn f a :: subExprs a
  | piecewiseNe x a b w =>
      piecewiseNe x a b w ::
        (subExprs x ++ subExprs a ++ subExprs b ++ subExprs w)

def subExprsList : List SymExpr → List SymExpr
  | [] => []
  | e :: es => subExprs e ++ subExprsList es

end

/-- Multiset inclusion of expression lists (each element of `ps` is matched
against a distinct element of `cs`). -/
def msubset : List SymExpr → List SymExpr → Bool
  | [], _ => true
  | p :: ps, cs => cs.contains p && msubset ps (cs.erase p)

/-- `arg.is_Pow` of sympy. -/
def isPow : SymExpr → Bool
  | pow _ _ => true
  | _ => false

/-- The argument list a node contributes when multiplied into a `Mul`
(sympy's `Mul` flattening splices nested `Mul` arguments). -/
def mulArgs : SymExpr → List SymExpr
  | mul l => l
  | e => [e]

/-- `arg1 * arg2` as built inside `multiplies_var`: a flattened `Mul`.
sympy additionally merges equal bases into powers and sorts the arguments
canonically; neither matters here because `hasSub` compares `Mul`
argument lists as multisets, and the patterns built by `multiplies_var`
are products of two distinct sibling sub-terms of the scanned node. -/
def symMul (a b : SymExpr) : SymExpr := mul (mulArgs a ++ mulArgs b)

/-- `expr.has(pat)` of sympy for the composite patterns `arg1*arg2` built
by `multiplies_var`: a sub-expression matches a `Mul` pattern when it is a
`Mul` whose argument multiset contains the pattern's arguments
(`(x*y*z).has(x*y)` is true in sympy), and any pattern matches a
structurally equal sub-expression. -/
def hasSub (pat : SymExpr) (e : SymExpr) : Bool :=
  (subExprs e).any fun cand =>
    cand == pat ||
      (match pat, cand with
       | mul ps, mul cs => msubset ps cs
       | _, _ => false)

end SymExpr

open SymExpr

open SymExpr in
/-- One step of `multiplies_var` (`functions.py`), with explicit fuel for
the recursion.  The body is the literal transcription of the Python:
collect the immediate arguments containing the main variable; return true
as soon as some sibling `arg2` is the arbitrary variable itself (or a
power containing it) and the reconstructed product `arg1*arg2` is still a
sub-term of the node; otherwise recurse into the collected arguments other
than the bare main variable.  The Python recursion needs no fuel; fuel
`size e` is always enough (`multipliesVarFuel_congr` below), which is
exactly the termination argument of the claim. -/
def multipliesVarFuel : Nat → String → String → SymExpr → Bool
  | 0, _, _, _ => false
  | n + 1, v, p, e =>
    ((e.args.filter fun a => occurs v a).any fun a1 =>
      e.args.any fun a2 =>
        (a2 == sym p || (isPow a2 && occurs p a2)) &&
          hasSub (symMul a1 a2) e) ||
    (((e.args.filter fun a => occurs v a).filter fun a => a != sym v).any
      fun a => multipliesVarFuel n v p a)

open SymExpr in
/-- `multiplies_var(main_var, arb_var, expr)` of `functions.py`:
whether `arb_var` (or a power of it) multiplies a sub-expression
containing `main_var`. -/
def multiplies_var (v p : String) (e : SymExpr) : Bool :=
  multipliesVarFuel e.size v p e

section DoctestExamples

open SymExpr

-- `parse_expr("a*sinh(k*x) + c")`, first doctest of `multiplies_var`.
example :
    multiplies_var "x" "a"
      (add [mul [sym "a", fn "sinh" (mul [sym "k", sym "x"])], sym "c"]) =
      true := by decide

example :
    multiplies_var "x" "k"
      (add [mul [sym "a", fn "sinh" (mul [sym "k", sym "x"])], sym "c"]) =
      true := by decide

example :
    multiplies_var "x" "b"
      (add [mul [sym "a", fn "sinh" (mul [sym "k", sym "x"])], sym "c"]) =
      false := by decide

end DoctestExamples

open SymExpr in
/-- `parse_expr("w*a**pi*sin(k**10*tan(y*x)*z) + d + e**10*tan(f)")`,
second doctest of `multiplies_var`. -/
def bigDoctestExpr : SymExpr :=
  add [mul [sym "w", pow (sym "a") piConst,
            fn "sin" (mul [pow (sym "k") (num 10),
                           fn "tan" (mul [sym "y", sym "x"]),
                           sym "z"])],
       sym "d",
       mul [pow (sym "e") (num 10), fn "tan" (sym "f")]]

/-! ## Numeric evaluation and the symbolic-algebra backend

`FunctionRtoR` delegates differentiation, integration and numeric
compilation to sympy.  The fragment of that backend exercised by the
claims is modelled below: `evalE` interprets an expression tree over `ℝ`
(the numeric meaning `lambdify` compiles), `diffE` is the symbolic
derivative, and `integrateE` the symbolic antiderivative on the shapes
the claims need.  sympy additionally simplifies the trees it returns;
the claims under study only compare values, which simplification
preserves, so the model keeps the unsimplified trees. -/
/-- A numeric assignment for the symbols of an expression. -/
def Env : Type := String → ℝ

/-- Interpretation of the function names appearing in the modelled
fragment (the standard numeric library plus the `rect` registry entry of
`functions.py`); names outside the fragment evaluate to `0` and are never
relied upon by any theorem. -/
noncomputable def applyFn : String → ℝ → ℝ
  | "sin", x => Real.sin x
  | "cos", x => Real.cos x
  | "sinh", x => Real.sinh x
  | "cosh", x => Real.cosh x
  | "tan", x => Real.tan x
  | "log", x => Real.log x
  | "rect", x => if x ^ 2 ≤ 1 then 1 else 0
  | _, _ => 0

mutual

/-- Value of an expression tree under an assignment: the numeric meaning
of the evaluator `lambdify` compiles from the tree.  `Piecewise((x, Ne(a,
b)), (w, True))` takes `x` where `a ≠ b` and `w` otherwise. -/
noncomputable def evalE (env : Env) : SymExpr → ℝ
  | .sym s => env s
  | .num q => (q : ℝ)
  | .piConst => Real.pi
  | .add l => evalSum env l
  | .mul l => evalProd env l
  | .pow b e => evalE env b ^ evalE env e
  | .fn f a => applyFn f (evalE env a)
  | .piecewiseNe x a b w =>
      if evalE env a ≠ evalE env b then evalE env x else evalE env w

noncomputable def evalSum (env : Env) : List SymExpr → ℝ
  | [] => 0
  | e :: es => evalE env e + evalSum env es

noncomputable def evalProd (env : Env) : List SymExpr → ℝ
  | [] => 1
  | e :: es => evalE env e * evalProd env es

end

/-- Derivative of a function application: the chain-rule factor.  Names
outside the modelled fragment get an uninterpreted marker; every theorem
using it multiplies it by a factor that evaluates to zero. -/
def fnDeriv : String → SymExpr → SymExpr
  | "sin", a => .fn "cos" a
  | "cos", a => .mul [.num (-1), .fn "sin" a]
  | "sinh", a => .fn "cosh" a
  | "cosh", a => .fn "sinh" a
  | "tan", a => .add [.num 1, .pow (.fn "tan" a) (.num 2)]
  | "log", a => .pow a (.num (-1))
  | f, a => .fn ("D" ++ f) a

/-- Derivative of `b ** c` given the derivatives `db`, `dc` of the two
pieces: the power rule for a numeric exponent, the general
`b^c*(dc*log b + c*db/b)` otherwise (sympy's rule). -/
def diffPow (b c db dc : SymExpr) : SymExpr :=
  match c with
  | .num n => .mul [.num n, .pow b (.num (n - 1)), db]
  | c => .mul [.pow b c,
               .add [.mul [dc, .fn "log" b],
                     .mul [c, db, .pow b (.num (-1))]]]

mutual

/-- Symbolic derivative with respect to the symbol `v`: the model of
sympy's `diff(expr, v)` (`FunctionRtoR.derivative` calls
`diff(self._symbolic_func, self.symbols[0])`).  Sums differentiate
term-wise, products by the product rule (`diffProd`), `Piecewise`
branch-wise with the conditions kept (sympy's rule; the conditions in the
modelled fragment never contain `v`). -/
def diffE (v : String) : SymExpr → SymExpr
  | .sym s => .num (if s = v then 1 else 0)
  | .num _ => .num 0
  | .piConst => .num 0
  | .add l => .add (diffList v l)
  | .mul l => diffProd v l
  | .pow b c => diffPow b c (diffE v b) (diffE v c)
  | .fn f a => .mul [fnDeriv f a, diffE v a]
  | .piecewiseNe x a b w => .piecewiseNe (diffE v x) a b (diffE v w)

def diffList (v : String) : List SymExpr → List SymExpr
  | [] => []
  | e :: es => diffE v e :: diffList v es

def diffProd (v : String) : List SymExpr → SymExpr
  | [] => .num 0
  | e :: es => .add [.mul (diffE v e :: es), .mul [e, diffProd v es]]

end

/-- `Piecewise((-cos(k*x)/k, Ne(k, 0)), (0, True))`: the antiderivative
sympy returns for `sin(k*x)` (documented verbatim in the doctest of
`FunctionRtoR.antiderivative`). -/
def sinAntideriv (k x : SymExpr) : SymExpr :=
  .piecewiseNe
    (.mul [.num (-1), .fn "cos" (.mul [k, x]), .pow k (.num (-1))])
    k (.num 0) (.num 0)

/-- Antiderivative of a single factor containing `v`: the bare variable
(`∫ v dv = v²/2`) or `sin(k*v)` with a parameter `k` (`sinAntideriv`);
`none` outside the modelled fragment. -/
def integMulRest (v : String) : SymExpr → Option SymExpr
  | .sym s =>
      if s = v then
        some (.mul [.num (1 / 2), .pow (.sym v) (.num 2)])
      else none
  | .fn "sin" (.mul [.sym k, .sym s]) =>
      if s = v ∧ ¬ k = v then some (sinAntideriv (.sym k) (.sym s))
      else none
  | _ => none

mutual

/-- Model of sympy's `integrate(expr, v)` (`FunctionRtoR.antiderivative`
calls `integrate(self._symbolic_func, self.symbols[0])`) on the fragment
the claims exercise: `v`-free expressions integrate to `e*v`, sums
term-wise, products of `v`-free factors with one `v`-dependent factor by
pulling the constants out and integrating the factor (`integMulRest`:
the bare variable to `v²/2`, `sin(k*v)` to the `sinAntideriv` shape
documented in the source's doctest).  `none` marks expressions outside
the modelled fragment of the backend. -/
def integrateE (v : String) (e : SymExpr) : Option SymExpr :=
  if occurs v e then
    match e with
    | .add l => (integrateList v l).map SymExpr.add
    | .mul l =>
        match l.filter fun a => occurs v a with
        | [r] =>
            (integMulRest v r).map fun G =>
              .mul ((l.filter fun a => !(occurs v a)) ++ [G])
        | _ => none
    | r => integMulRest v r
  else some (.mul [e, .sym v])

def integrateList (v : String) : List SymExpr → Option (List SymExpr)
  | [] => some []
  | e :: es =>
      match integrateE v e, integrateList v es with
      | some F, some Fs => some (F :: Fs)
      | _, _ => none

end

/-! ## The function object `FunctionRtoR` and its callers -/
/-- The ways a call of the compiled evaluator can fail (all surface as a
Python exception at the call site). -/
inductive CallErr where
  /-- `TypeError`: number of positional arguments does not match the
  compiled function's signature. -/
  | arityMismatch : CallErr
  /-- `TypeError: keywords must be strings`: CPython rejects `f(**kwargs)`
  when `kwargs` is keyed by non-strings (here: sympy `Symbol`s). -/
  | keywordsMustBeStrings : CallErr
  /-- The numeric evaluation itself raised (`ZeroDivisionError`, domain
  error, overflow, ...). -/
  | evalError : CallErr
  deriving DecidableEq, Repr

/-- Numeric behaviour of the backend-compiled evaluator body: `some`
value, or `none` when the numeric evaluation raises.  The engine treats
the compiled callable as an opaque capability (spec §2), so the model
threads it as a parameter; the theorems below hold for every `core`. -/
def EvalCore : Type := SymExpr → Env → Option ℝ

/-- `lambdify(self.symbols, self._symbolic_func, modules=module_list)`:
the compiled evaluator is a Python function with one positional parameter
per symbol (primary variable first).  Calling it with any other number of
positional arguments raises a `TypeError` (arity error); otherwise the
body evaluates the expression with the symbols bound to the arguments in
order. -/
def lambdifyM (core : EvalCore) (symbols : List String) (e : SymExpr) :
    ℝ → List ℝ → Except CallErr ℝ :=
  fun x args =>
    if (x :: args).length = symbols.length then
      match core e (fun s => ((symbols.zip (x :: args)).lookup s).getD 0) with
      | some y => Except.ok y
      | none => Except.error CallErr.evalError
    else Except.error CallErr.arityMismatch

/-- The state of a `FunctionRtoR` object (`functions.py`): the parsed
expression `_symbolic_func`, the display string `latex_repr` (modelled by
the expression it was rendered from), the ordered symbol list (primary
variable first), the parameter list (the free symbols minus the primary
variable), and the compiled evaluator `_lambda_func`. -/
structure FunctionRtoR where
  symbolic_func : SymExpr
  latex_repr : SymExpr
  symbols : List String
  parameters : List String
  lambda_func : ℝ → List ℝ → Except CallErr ℝ

instance : Inhabited FunctionRtoR :=
  ⟨{ symbolic_func := .num 0, latex_repr := .num 0, symbols := [],
     parameters := [], lambda_func := fun _ _ => .error .evalError }⟩

/-- The construction failure of `FunctionRtoR.__init__`:
`VariableNotFoundError` when the primary variable is not among the free
symbols of the parsed expression. -/
inductive InitErr where
  | variableNotFound : InitErr
  deriving DecidableEq, Repr

/-- `FunctionRtoR.__init__(function_name, param)` after the backend has
parsed the string into `e`: collect the free symbols, raise
`VariableNotFoundError` when `param` is not among them, otherwise remove
`param` from the list, store it as the parameter list, put `param` first
in the symbol list and compile the evaluator.  A raised error discards
the partially initialised object, so the failure case carries no state. -/
def FunctionRtoR.init (core : EvalCore) (e : SymExpr) (param : String) :
    Except InitErr FunctionRtoR :=
  let symbolList := freeSymbols e
  if param ∈ symbolList then
    let params := symbolList.erase param
    Except.ok
      { symbolic_func := e
        latex_repr := e
        symbols := param :: params
        parameters := params
        lambda_func := lambdifyM core (param :: params) e }
  else Except.error InitErr.variableNotFound

/-- `get_default_values`: for each parameter, `1.0` when
`multiplies_var(symbols[0], s, symbolic_func)` holds and `0.0` otherwise
(`float` of the boolean). -/
noncomputable def FunctionRtoR.get_default_values (f : FunctionRtoR) :
    List (String × ℝ) :=
  f.parameters.map fun s =>
    (s,
      if multiplies_var (f.symbols.headD "") s f.symbolic_func then 1 else 0)

/-- `FunctionRtoR.__call__(x, *args)`.  The result is returned together
with the object, unchanged: the Python body reads `self` but never
assigns to it.  When `args` is empty the code tries to substitute the
suggested defaults: it builds `kwargs = self.get_default_values()` — a
dict keyed by sympy `Symbol`s — and calls
`self._lambda_func(x, *args, **kwargs)`.  With a non-empty `kwargs`
CPython rejects that call with `TypeError: keywords must be strings`
before the evaluator runs (the same values are also unpacked
positionally, so even a string-keyed dict would fail with
duplicate-argument errors); with an empty dict the call degenerates to
`self._lambda_func(x)`. -/
noncomputable def FunctionRtoR.call (f : FunctionRtoR) (x : ℝ)
    (args : List ℝ) : Except CallErr ℝ × FunctionRtoR :=
  if args.isEmpty then
    if f.get_default_values.isEmpty then (f.lambda_func x [], f)
    else (Except.error CallErr.keywordsMustBeStrings, f)
  else (f.lambda_func x args, f)

/-- `_reset_samesymbols`: "Set to a new function, assuming the same
variables" — regenerate the display string and the compiled evaluator
from the current expression, keeping `symbols` and `parameters` as they
are. -/
def FunctionRtoR.reset_samesymbols (core : EvalCore) (f : FunctionRtoR) :
    FunctionRtoR :=
  { f with
    latex_repr := f.symbolic_func
    lambda_func := lambdifyM core f.symbols f.symbolic_func }

/-- `FunctionRtoR.derivative`: replace the expression by its derivative
with respect to `symbols[0]`, then `_reset_samesymbols`. -/
def FunctionRtoR.derivative (core : EvalCore) (f : FunctionRtoR) :
    FunctionRtoR :=
  FunctionRtoR.reset_samesymbols core
    { f with symbolic_func := diffE (f.symbols.headD "") f.symbolic_func }

/-- `FunctionRtoR.antiderivative`: replace the expression by its
antiderivative with respect to `symbols[0]`, then `_reset_samesymbols`.
Outside the fragment covered by the `integrateE` model the object is
returned unchanged; no theorem relies on that branch. -/
def FunctionRtoR.antiderivative (core : EvalCore) (f : FunctionRtoR) :
    FunctionRtoR :=
  match integrateE (f.symbols.headD "") f.symbolic_func with
  | some F => FunctionRtoR.reset_samesymbols core { f with symbolic_func := F }
  | none => f

/-- `is_defined_at_values(f, *args)` (`functions.py`): attempt one call of
`f`, swallow any raised error (`except Exception`), and report success as
a boolean. -/
noncomputable def is_defined_at_values (f : FunctionRtoR) (x : ℝ)
    (args : List ℝ) : Bool :=
  match (f.call x args).1 with
  | .ok _ => true
  | .error _ => false

/-- The engine-relevant state of `PlottyAnimator`
(`plotty_animation.py`): the sample array `self.t`, the active function
`self.function`, the current parameter tuple `self.params`, and the
computed sample array `self.y`.  Title/line rendering is GUI plumbing
outside the modelled scope. -/
structure PlottyState where
  t : List ℝ
  function : FunctionRtoR
  params : List ℝ
  y : List ℝ

/-- `d = function.get_default_values(); params = tuple(d[key] for key in
d)`: the probe parameter tuple, in parameter-list order. -/
noncomputable def probeParams (f : FunctionRtoR) : List ℝ :=
  f.get_default_values.map Prod.snd

/-- `PlottyAnimator.set_function(function_name)`.  The input is the
backend parse outcome of the string: `none` when `parse_expr` raises
(malformed input and the empty string both do), `some e` otherwise.  The
first two source lines are inert: `function_name == "zero(x)"` is a
comparison whose result is discarded (not an assignment), and
`function_name != ()` is true for every string, so control always
reaches the `try`.  A parse failure or `VariableNotFoundError` is caught
(`except Exception`) and the method returns with the state untouched; a
failed definedness probe likewise returns early.  On success the title
is updated (GUI, outside the model) and `params`, `function` and `y` are
replaced; `y` is the evaluator mapped over `self.t` (a call that raises
there is outside the modelled claims and evaluates to `0` in the model).
The model is a total function: no exception escapes to the caller. -/
noncomputable def set_function (core : EvalCore) (st : PlottyState)
    (input : Option SymExpr) : PlottyState :=
  match input with
  | none => st
  | some e =>
    match FunctionRtoR.init core e "x" with
    | .error _ => st
    | .ok f =>
      let params := probeParams f
      if is_defined_at_values f Real.pi params then
        { st with
          params := params
          function := f
          y := st.t.map fun xi =>
            match (f.call xi params).1 with
            | .ok r => r
            | .error _ => 0 }
      else st

open SymExpr in
/-- `parse_expr("a*sin(k*x) + c")` — the expression of claims C4/C8. -/
def sinKxPlusCExpr : SymExpr :=
  add [mul [sym "a", fn "sin" (mul [sym "k", sym "x"])], sym "c"]

open SymExpr in
/-- `parse_expr("a*sin(k*x) + d")` — the expression of claims C1/C7. -/
def sinKxPlusDExpr : SymExpr :=
  add [mul [sym "a", fn "sin" (mul [sym "k", sym "x"])], sym "d"]

open SymExpr in
example :
    hasSub (mul [sym "x", sym "k"]) (mul [sym "k", sym "x", sym "z"]) =
      true := by decide

/-! ## Concrete objects used by witnesses and counterexamples -/
/-- A backend core whose every numeric evaluation raises: exercises the
failure paths in witnesses. -/
def coreNone : EvalCore := fun _ _ => none

/-- The object `FunctionRtoR("a*sin(k*x) + d", abc.x)` builds (the
doctest objects of `derivative`/`antiderivative`): free symbols
enumerated as `a, k, x, d`, primary variable moved to the front. -/
def fSinKxD (core : EvalCore) : FunctionRtoR :=
  { symbolic_func := sinKxPlusDExpr
    latex_repr := sinKxPlusDExpr
    symbols := ["x", "a", "k", "d"]
    parameters := ["a", "k", "d"]
    lambda_func := lambdifyM core ["x", "a", "k", "d"] sinKxPlusDExpr }

/-- The object `FunctionRtoR("a*sin(k*x) + c", abc.x)` builds. -/
def fSinKxC (core : EvalCore) : FunctionRtoR :=
  { symbolic_func := sinKxPlusCExpr
    latex_repr := sinKxPlusCExpr
    symbols := ["x", "a", "k", "c"]
    parameters := ["a", "k", "c"]
    lambda_func := lambdifyM core ["x", "a", "k", "c"] sinKxPlusCExpr }

open SymExpr in
/-- `parse_expr("sin(x)")`: a parameter-free expression. -/
def sinXExpr : SymExpr := fn "sin" (sym "x")

/-- The object built from `sin(x)`: no parameters. -/
def fSinX (core : EvalCore) : FunctionRtoR :=
  { symbolic_func := sinXExpr
    latex_repr := sinXExpr
    symbols := ["x"]
    parameters := []
    lambda_func := lambdifyM core ["x"] sinXExpr }

/-- An animator state with empty sample arrays, for witnesses. -/
def stEmpty : PlottyState :=
  { t := [], function := default, params := [], y := [] }

open SymExpr in
/-- `parse_expr("sin(k)")`: an expression in which the primary variable
`x` does not occur. -/
def sinKExpr : SymExpr := fn "sin" (sym "k")

/-! ## `rect` (claims C6, C10)

`rect` in `functions.py` branches on the runtime type of its argument:
a numpy array is mapped element-wise, a Python `float` is handled by a
scalar branch, and any other input leaves the result variable `y`
unassigned, so the trailing `return y` raises `UnboundLocalError`.
Numbers are modelled by `ℚ` (exact Python float arithmetic on the
values the comparison `x**2 <= 1.0` sees). -/
/-- A Python value passed to `rect`: a numpy array of numbers, a
`float`, or a scalar of any other type (modelled by the `int` and
`pyNone` cases), which matches neither `isinstance` branch. -/
inductive PyVal where
  | arr : List ℚ → PyVal
  | float : ℚ → PyVal
  | int : ℤ → PyVal
  | pyNone : PyVal
  deriving DecidableEq, Repr

/-- `rect(x)` of `functions.py`.  `some` is a normal return; `none`
models the `UnboundLocalError` raised by `return y` when neither
`isinstance` branch assigned `y`. -/
def rect : PyVal → Option PyVal
  | .arr l => some (.arr (l.map fun q => if q ^ 2 ≤ 1 then 1 else 0))
  | .float q => some (.float (if q ^ 2 ≤ 1 then 1 else 0))
  | .int _ => none
  | .pyNone => none

/-- The tree `integrateE` returns for `a*sin(k*x) + d` — sympy's
`a*Piecewise((-cos(k*x)/k, Ne(k, 0)), (0, True)) + d*x` (the
`antiderivative` doctest). -/
def c7AntiF : SymExpr :=
  .add [.mul [.sym "a", sinAntideriv (.sym "k") (.sym "x")],
        .mul [.sym "d", .sym "x"]]

/-- A concrete assignment for the C7 witness. -/
noncomputable def envW : Env := fun _ => (2 : ℝ)

/-! ## Theorems -/

example :
    [multiplies_var "x" "w" bigDoctestExpr,
     multiplies_var "x" "a" bigDoctestExpr,
     multiplies_var "x" "k" bigDoctestExpr,
     multiplies_var "x" "z" bigDoctestExpr,
     multiplies_var "x" "y" bigDoctestExpr,
     multiplies_var "x" "d" bigDoctestExpr,
     multiplies_var "x" "e" bigDoctestExpr,
     multiplies_var "x" "f" bigDoctestExpr] =
    [true, true, true, true, true, false, false, false] := by decide

example : (SymExpr.add [SymExpr.sym "a", SymExpr.num 3]).size = 3 := by decide

theorem size_pos (e : SymExpr) : 0 < e.size := by
  cases e <;> simp only [SymExpr.size] <;> omega

theorem size_le_sizeList {a : SymExpr} :
    ∀ {l : List SymExpr}, a ∈ l → a.size ≤ SymExpr.sizeList l := by
  intro l h
  induction l with
  | nil => cases h
  | cons b bs ih =>
    rcases List.mem_cons.mp h with h | h
    · subst h; simp [SymExpr.sizeList]
    · have := ih h
      simp only [SymExpr.sizeList]
      omega

/-- Every immediate argument of a node is a strictly smaller tree: the
reason the recursion of `multiplies_var` terminates. -/
theorem size_lt_of_mem_args {a e : SymExpr} (h : a ∈ e.args) :
    a.size < e.size := by
  cases e with
  | sym s => cases h
  | num q => cases h
  | piConst => cases h
  | add l =>
    have := size_le_sizeList (a := a) (l := l) h
    simp only [SymExpr.size]; omega
  | mul l =>
    have := size_le_sizeList (a := a) (l := l) h
    simp only [SymExpr.size]; omega
  | pow b c =>
    have hb := size_pos b
    have hc := size_pos c
    simp only [SymExpr.args, List.mem_cons, List.not_mem_nil, or_false] at h
    rcases h with rfl | rfl <;> simp only [SymExpr.size] <;> omega
  | fn f b =>
    simp only [SymExpr.args, List.mem_cons, List.not_mem_nil, or_false] at h
    subst h
    simp only [SymExpr.size]; omega
  | piecewiseNe x a1 b w =>
    have hx := size_pos x
    have ha := size_pos a1
    have hb := size_pos b
    have hw := size_pos w
    simp only [SymExpr.args, List.mem_cons, List.not_mem_nil, or_false] at h
    rcases h with rfl | rfl | rfl | rfl <;> simp only [SymExpr.size] <;> omega

theorem list_any_congr {α : Type} {f g : α → Bool} :
    ∀ {l : List α}, (∀ a ∈ l, f a = g a) → l.any f = l.any g := by
  intro l h
  induction l with
  | nil => rfl
  | cons b bs ih =>
    simp only [List.any_cons]
    rw [h b (List.mem_cons_self b bs),
        ih fun a ha => h a (List.mem_cons_of_mem b ha)]

theorem multipliesVarFuel_congr :
    ∀ (n m : ℕ) (v p : String) (e : SymExpr), e.size ≤ n → e.size ≤ m →
      multipliesVarFuel n v p e = multipliesVarFuel m v p e := by
  intro n
  induction n with
  | zero =>
    intro m v p e hn _
    exact absurd hn (by have := size_pos e; omega)
  | succ n ih =>
    intro m v p e hn hm
    cases m with
    | zero => exact absurd hm (by have := size_pos e; omega)
    | succ m =>
      simp only [multipliesVarFuel]
      congr 1
      apply list_any_congr
      intro a ha
      have haa : a ∈ e.args :=
        (List.mem_filter.mp (List.mem_filter.mp ha).1).1
      have hsz := size_lt_of_mem_args haa
      exact ih m v p a (by omega) (by omega)

/-- **C8.** `multiplies_var(v, p, expr)` is deterministic and terminates on
every finite expression tree.  The recursion of the Python function is
modelled with an explicit fuel counter (`multipliesVarFuel`); this theorem
shows the computation stabilizes once the fuel reaches the node count of
the tree — every run with sufficient fuel returns the same boolean as
`multiplies_var` (which uses fuel `e.size`), so the recursion terminates
within `e.size` nested calls and the result is unique.  The termination
argument is `size_lt_of_mem_args`: the recursion only descends into
strict sub-expressions (arguments of the node) that contain `v`. -/
theorem c8_multiplies_var_deterministic_terminates
    (v p : String) (e : SymExpr) (n : ℕ) (hn : e.size ≤ n) :
    multipliesVarFuel n v p e = multiplies_var v p e :=
  multipliesVarFuel_congr n e.size v p e hn le_rfl

theorem occursList_eq_false {v : String} :
    ∀ {l : List SymExpr}, occursList v l = false →
      ∀ e ∈ l, occurs v e = false := by
  intro l
  induction l with
  | nil => intro _ e he; cases he
  | cons b bs ih =>
    intro h e he
    simp only [occursList, Bool.or_eq_false_iff] at h
    rcases List.mem_cons.mp he with rfl | hmem
    · exact h.1
    · exact ih h.2 e hmem

theorem evalE_diffPow_zero (env : Env) (b c db dc : SymExpr)
    (hdb : evalE env db = 0) (hdc : evalE env dc = 0) :
    evalE env (diffPow b c db dc) = 0 := by
  cases c <;>
    simp [diffPow, evalE, evalSum, evalProd, hdb, hdc]

theorem evalSum_diffList_of_vfree (v : String) (env : Env) (n : ℕ)
    (ih : ∀ e : SymExpr, e.size ≤ n → occurs v e = false →
      evalE env (diffE v e) = 0) :
    ∀ l : List SymExpr, SymExpr.sizeList l ≤ n → occursList v l = false →
      evalSum env (diffList v l) = 0 := by
  intro l
  induction l with
  | nil => intro _ _; simp [diffList, evalSum]
  | cons b bs ihl =>
    intro hsz hocc
    simp only [occursList, Bool.or_eq_false_iff] at hocc
    simp only [SymExpr.sizeList] at hsz
    have hb := size_pos b
    simp only [diffList, evalSum]
    rw [ih b (by omega) hocc.1, ihl (by omega) hocc.2]
    ring

theorem evalE_diffProd_of_vfree (v : String) (env : Env) (n : ℕ)
    (ih : ∀ e : SymExpr, e.size ≤ n → occurs v e = false →
      evalE env (diffE v e) = 0) :
    ∀ l : List SymExpr, SymExpr.sizeList l ≤ n → occursList v l = false →
      evalE env (diffProd v l) = 0 := by
  intro l
  induction l with
  | nil => intro _ _; simp [diffProd, evalE]
  | cons b bs ihl =>
    intro hsz hocc
    simp only [occursList, Bool.or_eq_false_iff] at hocc
    simp only [SymExpr.sizeList] at hsz
    have hb := size_pos b
    simp only [diffProd, evalE, evalSum, evalProd]
    rw [ih b (by omega) hocc.1, ihl (by omega) hocc.2]
    ring

/-- The symbolic derivative of an expression not containing `v` evaluates
to `0` under every assignment (differentiation drops `v`-free terms up to
numeric equality). -/
theorem evalE_diffE_of_vfree (v : String) (env : Env) :
    ∀ (n : ℕ) (e : SymExpr), e.size ≤ n → occurs v e = false →
      evalE env (diffE v e) = 0 := by
  intro n
  induction n with
  | zero =>
    intro e hsz _
    exact absurd hsz (by have := size_pos e; omega)
  | succ n ih =>
    intro e hsz hocc
    cases e with
    | sym s =>
      simp only [occurs, beq_eq_false_iff_ne, ne_eq] at hocc
      have hsv : ¬ s = v := fun h => hocc h.symm
      simp [diffE, evalE, hsv]
    | num q => simp [diffE, evalE]
    | piConst => simp [diffE, evalE]
    | add l =>
      simp only [occurs] at hocc
      simp only [SymExpr.size] at hsz
      simp only [diffE, evalE]
      exact evalSum_diffList_of_vfree v env n
        (fun e h1 h2 => ih e (by omega) h2) l (by omega) hocc
    | mul l =>
      simp only [occurs] at hocc
      simp only [SymExpr.size] at hsz
      simp only [diffE]
      exact evalE_diffProd_of_vfree v env n
        (fun e h1 h2 => ih e (by omega) h2) l (by omega) hocc
    | pow b c =>
      simp only [occurs, Bool.or_eq_false_iff] at hocc
      simp only [SymExpr.size] at hsz
      have hb := size_pos b
      have hc := size_pos c
      simp only [diffE]
      exact evalE_diffPow_zero env b c _ _
        (ih b (by omega) hocc.1) (ih c (by omega) hocc.2)
    | fn f a =>
      simp only [occurs] at hocc
      simp only [SymExpr.size] at hsz
      simp only [diffE, evalE, evalProd]
      rw [ih a (by omega) hocc]
      ring
    | piecewiseNe x a b w =>
      simp only [occurs, Bool.or_eq_false_iff] at hocc
      simp only [SymExpr.size] at hsz
      have h1 := size_pos x
      have h2 := size_pos a
      have h3 := size_pos b
      have h4 := size_pos w
      simp only [diffE, evalE]
      rw [ih x (by omega) hocc.1.1.1, ih w (by omega) hocc.2]
      simp

theorem set_function_none (core : EvalCore) (st : PlottyState) :
    set_function core st none = st := rfl

theorem set_function_novar (core : EvalCore) (st : PlottyState)
    (e : SymExpr) (h : "x" ∉ freeSymbols e) :
    set_function core st (some e) = st := by
  simp [set_function, FunctionRtoR.init, h]

theorem set_function_probe_fails (core : EvalCore) (st : PlottyState)
    (e : SymExpr) (f : FunctionRtoR)
    (hf : FunctionRtoR.init core e "x" = Except.ok f)
    (hp : is_defined_at_values f Real.pi (probeParams f) = false) :
    set_function core st (some e) = st := by
  simp [set_function, hf, hp]

/-- Witness for C8: at the concrete tree of `a*sin(k*x) + c`, any fuel at
least its size (here 100) produces the same result as `multiplies_var`. -/
theorem c8_multiplies_var_deterministic_terminates_witness :
    sinKxPlusCExpr.size ≤ 100 ∧
      multipliesVarFuel 100 "x" "a" sinKxPlusCExpr =
        multiplies_var "x" "a" sinKxPlusCExpr :=
  ⟨by decide,
   c8_multiplies_var_deterministic_terminates "x" "a" sinKxPlusCExpr 100
     (by decide)⟩

example :
    SymExpr.freeSymbols
      (SymExpr.add [SymExpr.mul [SymExpr.sym "a", SymExpr.sym "x"],
                    SymExpr.sym "a"]) = ["a", "x"] := by decide

theorem init_fSinKxD (core : EvalCore) :
    FunctionRtoR.init core sinKxPlusDExpr "x" = Except.ok (fSinKxD core) :=
  rfl

theorem init_fSinKxC (core : EvalCore) :
    FunctionRtoR.init core sinKxPlusCExpr "x" = Except.ok (fSinKxC core) :=
  rfl

theorem init_fSinX (core : EvalCore) :
    FunctionRtoR.init core sinXExpr "x" = Except.ok (fSinX core) := rfl

/-! ## Claims C5, C2, C3, C9 -/
/-- **C5.** Constructing a function object from an expression whose free
symbols do not include the designated primary variable fails with
`VariableNotFound`, for every such expression; the failed construction
mutates no prior state (here: a `set_function` attempt on any animator
state with such an expression leaves the state exactly as it was). -/
theorem c5_init_variable_not_found (core : EvalCore) (e : SymExpr)
    (v : String) (h : v ∉ freeSymbols e) :
    FunctionRtoR.init core e v = Except.error InitErr.variableNotFound ∧
      ∀ st : PlottyState, "x" ∉ freeSymbols e →
        set_function core st (some e) = st := by
  refine ⟨?_, fun st hx => set_function_novar core st e hx⟩
  simp [FunctionRtoR.init, h]

/-- Witness for C5 at `sin(k)` (primary variable `x` absent). -/
theorem c5_init_variable_not_found_witness :
    "x" ∉ freeSymbols sinKExpr ∧
      (FunctionRtoR.init coreNone sinKExpr "x" =
          Except.error InitErr.variableNotFound ∧
        set_function coreNone stEmpty (some sinKExpr) = stEmpty) := by
  have h : "x" ∉ freeSymbols sinKExpr := by decide
  have hc := c5_init_variable_not_found coreNone sinKExpr "x" h
  exact ⟨h, hc.1, hc.2 stEmpty h⟩

/-- **C2.** `set_function` is a no-op on every failure path: when the
input fails to parse (the empty string included — `parse_expr("")`
raises, and the `function_name == "zero(x)"` line is an inert
comparison), when the parsed expression lacks the primary variable `x`,
and when the parsed function fails the definedness probe at `pi` with
its suggested default parameter values.  In each case the returned state
is exactly the previous one — active function, parameters and sample
array unchanged — and, the model being a total function, no exception
reaches the caller. -/
theorem c2_set_function_noop (core : EvalCore) (st : PlottyState) :
    set_function core st none = st ∧
    (∀ e : SymExpr, "x" ∉ freeSymbols e →
      set_function core st (some e) = st) ∧
    (∀ (e : SymExpr) (f : FunctionRtoR),
      FunctionRtoR.init core e "x" = Except.ok f →
      is_defined_at_values f Real.pi (probeParams f) = false →
      set_function core st (some e) = st) :=
  ⟨set_function_none core st,
   fun e he => set_function_novar core st e he,
   fun e f hf hp => set_function_probe_fails core st e f hf hp⟩

/-- Witness for C2: the three failure paths at concrete inputs — an
unparsable string, `sin(k)` (no `x`), and `sin(x)` probed with a core
whose evaluation raises. -/
theorem c2_set_function_noop_witness :
    set_function coreNone stEmpty none = stEmpty ∧
      set_function coreNone stEmpty (some sinKExpr) = stEmpty ∧
      set_function coreNone stEmpty (some sinXExpr) = stEmpty := by
  have hc := c2_set_function_noop coreNone stEmpty
  refine ⟨hc.1, hc.2.1 sinKExpr (by decide), ?_⟩
  refine hc.2.2 sinXExpr (fSinX coreNone) (init_fSinX coreNone) ?_
  simp [is_defined_at_values, FunctionRtoR.call, probeParams,
    FunctionRtoR.get_default_values, fSinX, lambdifyM, coreNone]

/-- **C3 (amended).** Calling the compiled evaluator of any constructed
function object with a *non-empty* parameter tuple whose length differs
from the parameter list length fails deterministically with an arity
error, and the failing call leaves the object's state unchanged (the
call returns the object exactly as it was).  The empty tuple is the one
exception forced by the code: it takes the default-substitution branch
of `__call__` instead, which (for a non-empty parameter list) fails with
the keyword-argument `TypeError`, not an arity error — see
`c3_call_arity_error_counterexample`. -/
theorem c3_call_arity_error (core : EvalCore) (e : SymExpr) (v : String)
    (f : FunctionRtoR) (hf : FunctionRtoR.init core e v = Except.ok f)
    (x : ℝ) (args : List ℝ) (hne : args ≠ [])
    (hlen : args.length ≠ f.parameters.length) :
    (f.call x args).1 = Except.error CallErr.arityMismatch ∧
      (f.call x args).2 = f := by
  have hsymb : f.symbols = v :: f.parameters ∧
      f.lambda_func = lambdifyM core f.symbols f.symbolic_func ∧
      f.symbolic_func = e := by
    by_cases hmem : v ∈ freeSymbols e
    · simp only [FunctionRtoR.init, hmem, if_pos, Except.ok.injEq] at hf
      subst hf
      exact ⟨rfl, rfl, rfl⟩
    · simp [FunctionRtoR.init, hmem] at hf
  have hargs : args.isEmpty = false := by
    cases args with
    | nil => exact absurd rfl hne
    | cons a as_ => rfl
  have hcall : f.call x args = (f.lambda_func x args, f) := by
    simp [FunctionRtoR.call, hargs]
  rw [hcall]
  refine ⟨?_, rfl⟩
  have hlen2 : ¬ (x :: args).length = f.symbols.length := by
    rw [hsymb.1]
    simp only [List.length_cons]
    omega
  rw [hsymb.2.1]
  simp only [lambdifyM]
  rw [if_neg hlen2]

/-- Witness for C3 (amended): the object built from `a*sin(k*x) + d` (3
parameters) called with the 1-element tuple `(5,)` raises the arity
error and is returned unchanged. -/
theorem c3_call_arity_error_witness :
    ([5] : List ℝ) ≠ [] ∧
      ([5] : List ℝ).length ≠ (fSinKxD coreNone).parameters.length ∧
      ((fSinKxD coreNone).call 0 [5]).1 =
        Except.error CallErr.arityMismatch ∧
      ((fSinKxD coreNone).call 0 [5]).2 = fSinKxD coreNone := by
  have h := c3_call_arity_error coreNone sinKxPlusDExpr "x"
    (fSinKxD coreNone) (init_fSinKxD coreNone) 0 [5]
    (by simp) (by decide)
  exact ⟨by simp, by decide, h.1, h.2⟩

/-- **C3, counterexample to the claim as stated.**  The claim asserts an
arity error for *every* tuple whose length differs from the parameter
count, "in particular with fewer parameters".  The empty tuple refutes
it: for the object built from `a*sin(k*x) + d` (parameter count 3), the
call with zero parameters does not reach the evaluator's arity check at
all — `__call__` takes the default-substitution branch, which fails with
the keyword-argument `TypeError` instead of an arity error. -/
theorem c3_call_arity_error_counterexample :
    ([] : List ℝ).length ≠ (fSinKxD coreNone).parameters.length ∧
      ((fSinKxD coreNone).call 0 []).1 ≠
        Except.error CallErr.arityMismatch ∧
      ((fSinKxD coreNone).call 0 []).1 =
        Except.error CallErr.keywordsMustBeStrings := by
  have hcall : ((fSinKxD coreNone).call 0 []).1 =
      Except.error CallErr.keywordsMustBeStrings := by
    simp [FunctionRtoR.call, FunctionRtoR.get_default_values, fSinKxD]
  refine ⟨by decide, ?_, hcall⟩
  rw [hcall]
  simp

/-- **C9.** For every function object with a non-empty parameter list,
calling it with only the primary-variable argument and an empty
positional tuple does *not* silently substitute the suggested defaults:
the branch built for that purpose passes `get_default_values()` — a dict
keyed by sympy `Symbol`s — as `**kwargs`, which CPython rejects with
`TypeError: keywords must be strings` before the evaluator runs.  Shown
here by evaluating the code at the failing input
`FunctionRtoR("a*sin(k*x) + d", x)(0.0)`. -/
theorem c9_call_empty_args_keyword_type_error :
    (fSinKxD coreNone).parameters ≠ [] ∧
      ((fSinKxD coreNone).call 0 []).1 =
        Except.error CallErr.keywordsMustBeStrings := by
  refine ⟨by decide, ?_⟩
  simp [FunctionRtoR.call, FunctionRtoR.get_default_values, fSinKxD]

/-! ## Claims C1 and C4 -/
/-- **C1 (amended).** For the function object constructed from
`a*sin(k*x) + d` with primary variable `x`, `derivative()` mutates it so
that its expression is numerically equal to `a*k*cos(k*x)` at every
sampled `x`, for all parameter values `a`, `k` — but the parameter list
is *not* regenerated: `_reset_samesymbols` rebuilds only the display
string and the compiled evaluator "assuming the same variables", so the
parameter list still contains the vanished symbol `d` afterwards. -/
theorem c1_derivative_sin (core : EvalCore) (env : Env) :
    evalE env (FunctionRtoR.derivative core (fSinKxD core)).symbolic_func =
        env "a" * env "k" * Real.cos (env "k" * env "x") ∧
      (FunctionRtoR.derivative core (fSinKxD core)).parameters =
        ["a", "k", "d"] := by
  constructor
  · have h : (FunctionRtoR.derivative core (fSinKxD core)).symbolic_func =
        diffE "x" sinKxPlusDExpr := rfl
    rw [h]
    simp +decide [sinKxPlusDExpr, diffE, diffList, diffProd, diffPow,
      fnDeriv, evalE, evalSum, evalProd, applyFn]
    ring
  · rfl

/-- **C1, counterexample to the claim as stated.**  The claim says the
parameter list no longer contains `d` after `derivative()`; in the code
`_reset_samesymbols` keeps `self.parameters` untouched, so `d` is still
there. -/
theorem c1_derivative_sin_counterexample :
    "d" ∈ (FunctionRtoR.derivative coreNone (fSinKxD coreNone)).parameters :=
  by decide

/-- **C4.** For `a*sin(k*x) + c` with primary variable `x`,
`multiplies_var` holds for the parameters `a` and `k` and fails for `c`,
and the suggested-default map of the constructed object is exactly
`{a: 1.0, k: 1.0, c: 0.0}`; in general the map sends each parameter `p`
to `1.0` when `multiplies_var(x, p, expr)` holds and to `0.0` otherwise
(the last conjunct, which is the code's own comprehension). -/
theorem c4_default_values (core : EvalCore) :
    multiplies_var "x" "a" sinKxPlusCExpr = true ∧
    multiplies_var "x" "k" sinKxPlusCExpr = true ∧
    multiplies_var "x" "c" sinKxPlusCExpr = false ∧
    (fSinKxC core).get_default_values = [("a", 1), ("k", 1), ("c", 0)] ∧
    (fSinKxC core).get_default_values =
      (fSinKxC core).parameters.map fun p =>
        (p,
          if multiplies_var "x" p (fSinKxC core).symbolic_func then (1 : ℝ)
          else 0) := by
  refine ⟨by decide, by decide, by decide, ?_, rfl⟩
  simp +decide [FunctionRtoR.get_default_values, fSinKxC]

/-- **C6.** `rect` returns `1.0` exactly on the closed interval
`[-1, 1]` — boundary values included — and `0.0` outside, as a scalar
for `float` input and element-wise for array input. -/
theorem c6_rect_indicator :
    (∀ q : ℚ,
      rect (.float q) =
        some (.float (if -1 ≤ q ∧ q ≤ 1 then 1 else 0))) ∧
    (∀ l : List ℚ,
      rect (.arr l) =
        some (.arr (l.map fun q => if -1 ≤ q ∧ q ≤ 1 then 1 else 0))) ∧
    rect (.float 1) = some (.float 1) ∧
    rect (.float (-1)) = some (.float 1) := by
  have hiff : ∀ q : ℚ, q ^ 2 ≤ 1 ↔ -1 ≤ q ∧ q ≤ 1 := by
    intro q
    rw [sq_le_one_iff_abs_le_one, abs_le]
  refine ⟨fun q => ?_, fun l => ?_, by decide, by decide⟩
  · simp only [rect, hiff]
  · simp only [rect, hiff]

/-- **C10.** `rect` is total only on arrays and floats: any other scalar
input (a Python `int` such as `rect(1)`, `None`, ...) matches neither
`isinstance` branch, so `y` is never assigned and the function raises
`UnboundLocalError` instead of returning. -/
theorem c10_rect_unbound_local (v : PyVal)
    (harr : ∀ l : List ℚ, v ≠ .arr l) (hfl : ∀ q : ℚ, v ≠ .float q) :
    rect v = none := by
  cases v with
  | arr l => exact absurd rfl (harr l)
  | float q => exact absurd rfl (hfl q)
  | int n => rfl
  | pyNone => rfl

/-- Witness for C10 at the claim's own example `rect(1)` (a Python
`int`). -/
theorem c10_rect_unbound_local_witness :
    rect (.int 1) = none :=
  c10_rect_unbound_local (.int 1) (fun l => by simp) (fun q => by simp)

/-! ## Claim C7: differentiate ∘ antidifferentiate -/
theorem evalProd_filter (env : Env) (p : SymExpr → Bool) :
    ∀ l : List SymExpr,
      evalProd env l =
        evalProd env (l.filter fun a => !(p a)) *
          evalProd env (l.filter p) := by
  intro l
  induction l with
  | nil => simp [evalProd]
  | cons b bs ih =>
    by_cases hb : p b = true
    · simp [List.filter_cons, hb, evalProd, ih]
      ring
    · have hb' : p b = false := by
        cases hpb : p b
        · rfl
        · exact absurd hpb hb
      simp [List.filter_cons, hb', evalProd, ih]
      ring

theorem evalE_diffProd_append_vfree (v : String) (env : Env)
    (G : SymExpr) :
    ∀ c : List SymExpr, (∀ a ∈ c, occurs v a = false) →
      evalE env (diffProd v (c ++ [G])) =
        evalProd env c * evalE env (diffE v G) := by
  intro c
  induction c with
  | nil =>
    intro _
    simp [diffProd, evalE, evalSum, evalProd]
  | cons b bs ih =>
    intro hc
    have hb0 : evalE env (diffE v b) = 0 :=
      evalE_diffE_of_vfree v env b.size b le_rfl
        (hc b (List.mem_cons_self b bs))
    have ih2 := ih fun a ha => hc a (List.mem_cons_of_mem b ha)
    simp only [List.cons_append, diffProd, evalE, evalSum, evalProd,
      hb0, List.append_eq, ih2]
    ring

/-- Derivative of the `x²/2` antiderivative shape evaluates back to the
variable. -/
theorem evalE_diffE_half_sq (v : String) (env : Env) :
    evalE env
        (diffE v (.mul [.num (1 / 2), .pow (.sym v) (.num 2)])) =
      env v := by
  simp only [diffE, diffList, diffProd, diffPow, evalE, evalSum,
    evalProd, if_pos rfl]
  push_cast
  rw [show ((2 : ℝ) - 1) = 1 by norm_num, Real.rpow_one]
  ring

/-- Derivative of the `Piecewise((-cos(k*x)/k, Ne(k, 0)), (0, True))`
antiderivative shape evaluates back to `sin(k*x)`, at every assignment —
including `k = 0`, where both sides vanish. -/
theorem evalE_diffE_sinAntideriv (v k : String) (hkv : ¬ k = v)
    (env : Env) :
    evalE env (diffE v (sinAntideriv (.sym k) (.sym v))) =
      Real.sin (env k * env v) := by
  by_cases hk0 : env k = 0
  · simp [sinAntideriv, diffE, evalE, hk0]
  · have hr : (env k) ^ (((-1 : ℚ) : ℝ)) = (env k)⁻¹ := by
      rw [show ((-1 : ℚ) : ℝ) = ((-1 : ℤ) : ℝ) by norm_num,
        Real.rpow_intCast, zpow_neg_one]
    simp only [sinAntideriv, diffE, diffList, diffProd, diffPow,
      fnDeriv, evalE, evalSum, evalProd, applyFn, hr, hkv, if_false,
      if_pos rfl]
    rw [if_pos (by simpa using hk0)]
    field_simp

/-- Inversion of `integMulRest`: the two shapes it accepts. -/
theorem integMulRest_eq_some {v : String} {r G : SymExpr}
    (h : integMulRest v r = some G) :
    (r = .sym v ∧
        G = .mul [.num (1 / 2), .pow (.sym v) (.num 2)]) ∨
      (∃ k : String, ¬ k = v ∧ r = .fn "sin" (.mul [.sym k, .sym v]) ∧
        G = sinAntideriv (.sym k) (.sym v)) := by
  unfold integMulRest at h
  split at h
  · rename_i s
    split at h
    · rename_i hsv
      subst hsv
      simp only [Option.some.injEq] at h
      exact Or.inl ⟨rfl, h.symm⟩
    · exact absurd h (by simp)
  · rename_i k s
    split at h
    · rename_i hkv
      obtain ⟨hsv, hkv2⟩ := hkv
      subst hsv
      simp only [Option.some.injEq] at h
      exact Or.inr ⟨k, hkv2, rfl, h.symm⟩
    · exact absurd h (by simp)
  · exact absurd h (by simp)

/-- Differentiating the antiderivative of a single `v`-dependent factor
recovers the factor's value. -/
theorem evalE_diffE_integMulRest (v : String) (env : Env) {r G : SymExpr}
    (h : integMulRest v r = some G) :
    evalE env (diffE v G) = evalE env r := by
  rcases integMulRest_eq_some h with ⟨hr, hG⟩ | ⟨k, hkv, hr, hG⟩
  · subst hr; subst hG
    rw [evalE_diffE_half_sq]
    simp [evalE]
  · subst hr; subst hG
    rw [evalE_diffE_sinAntideriv v k hkv]
    simp [evalE, evalProd, applyFn]

theorem evalSum_diffList_integrateList (v : String) (env : Env) (n : ℕ)
    (ih : ∀ e F : SymExpr, e.size ≤ n → integrateE v e = some F →
      evalE env (diffE v F) = evalE env e) :
    ∀ l Fs : List SymExpr, SymExpr.sizeList l ≤ n →
      integrateList v l = some Fs →
      evalSum env (diffList v Fs) = evalSum env l := by
  intro l
  induction l with
  | nil =>
    intro Fs _ hFs
    simp only [integrateList, Option.some.injEq] at hFs
    subst hFs
    rfl
  | cons b bs ihl =>
    intro Fs hsz hFs
    simp only [integrateList] at hFs
    cases hb : integrateE v b with
    | none => rw [hb] at hFs; simp at hFs
    | some Fb =>
      cases hbs : integrateList v bs with
      | none => rw [hb, hbs] at hFs; simp at hFs
      | some Fbs =>
        rw [hb, hbs] at hFs
        simp only [Option.some.injEq] at hFs
        subst hFs
        simp only [SymExpr.sizeList] at hsz
        have hbsize := size_pos b
        simp only [diffList, evalSum]
        rw [ih b Fb (by omega) hb, ihl Fbs (by omega) hbs]

/-- Differentiating the modelled antiderivative recovers the original
expression's value at every assignment: the idempotence law behind claim
C7, on the whole fragment where the modelled integrator is defined. -/
theorem evalE_diffE_integrateE (v : String) :
    ∀ (n : ℕ) (e F : SymExpr), e.size ≤ n → integrateE v e = some F →
      ∀ env : Env, evalE env (diffE v F) = evalE env e := by
  intro n
  induction n with
  | zero =>
    intro e F hsz _ _
    exact absurd hsz (by have := size_pos e; omega)
  | succ n ih =>
    intro e F hsz hF env
    rw [integrateE.eq_def] at hF
    by_cases hocc : occurs v e = true
    · rw [if_pos hocc] at hF
      split at hF
      · rename_i l
        rw [Option.map_eq_some'] at hF
        obtain ⟨Fs, hFs, hFF⟩ := hF
        subst hFF
        simp only [diffE, evalE]
        simp only [SymExpr.size] at hsz
        exact evalSum_diffList_integrateList v env n
          (fun e F h1 h2 => ih e F (by omega) h2 env) l Fs (by omega) hFs
      · rename_i l
        split at hF
        · rename_i r hr
          rw [Option.map_eq_some'] at hF
          obtain ⟨G, hG, hFF⟩ := hF
          subst hFF
          have hcfree : ∀ a ∈ l.filter fun a => !(occurs v a),
              occurs v a = false := by
            intro a ha
            have h2 := (List.mem_filter.mp ha).2
            simpa using h2
          simp only [diffE]
          rw [evalE_diffProd_append_vfree v env G _ hcfree,
            evalE_diffE_integMulRest v env hG]
          simp only [evalE]
          rw [evalProd_filter env (fun a => occurs v a) l, hr]
          simp only [evalProd]
          ring
        · simp at hF
      · rw [evalE_diffE_integMulRest v env hF]
    · rw [if_neg hocc] at hF
      have hocc2 : occurs v e = false := by
        cases h : occurs v e
        · rfl
        · exact absurd h hocc
      simp only [Option.some.injEq] at hF
      subst hF
      simp only [diffE]
      have h2 := evalE_diffProd_append_vfree v env (.sym v) [e]
        (by
          intro a ha
          simp only [List.mem_singleton] at ha
          subst ha
          exact hocc2)
      rw [show [e] ++ [SymExpr.sym v] = [e, SymExpr.sym v] from rfl] at h2
      rw [h2]
      simp [diffE, evalE, evalProd]

/-- **C7.** For every function object (in particular the one built from
`a*sin(k*x) + d`) whose expression lies in the modelled fragment of the
backend integrator, applying `antiderivative()` and then `derivative()`
yields a function numerically equal to the original at every sample
point and for all concrete parameter values (here exactly equal — the
additive constant of the law is zero, so it is equal in particular after
zeroing the constant term). -/
theorem c7_derivative_of_antiderivative (core : EvalCore) (e : SymExpr)
    (v : String) (f : FunctionRtoR)
    (hf : FunctionRtoR.init core e v = Except.ok f)
    (F : SymExpr) (hint : integrateE v e = some F) (env : Env) :
    evalE env
        (FunctionRtoR.derivative core
          (FunctionRtoR.antiderivative core f)).symbolic_func =
      evalE env f.symbolic_func := by
  have hfields : f.symbolic_func = e ∧ f.symbols = v :: f.parameters := by
    by_cases hmem : v ∈ freeSymbols e
    · simp only [FunctionRtoR.init, hmem, if_pos, Except.ok.injEq] at hf
      subst hf
      exact ⟨rfl, rfl⟩
    · simp [FunctionRtoR.init, hmem] at hf
  obtain ⟨hsf, hsymb⟩ := hfields
  have hhead : f.symbols.headD "" = v := by rw [hsymb]; rfl
  have hanti : FunctionRtoR.antiderivative core f =
      FunctionRtoR.reset_samesymbols core
        { f with symbolic_func := F } := by
    rw [FunctionRtoR.antiderivative, hhead, hsf, hint]
  rw [hanti]
  have hd : (FunctionRtoR.derivative core
      (FunctionRtoR.reset_samesymbols core
        { f with symbolic_func := F })).symbolic_func = diffE v F := by
    simp [FunctionRtoR.derivative, FunctionRtoR.reset_samesymbols, hsymb]
  rw [hd, hsf]
  exact evalE_diffE_integrateE v e.size e F le_rfl hint env

/-- Witness for C7: the object built from `a*sin(k*x) + d`, integrated
and re-differentiated, evaluated at a concrete assignment. -/
theorem c7_derivative_of_antiderivative_witness :
    integrateE "x" sinKxPlusDExpr = some c7AntiF ∧
      evalE envW
          (FunctionRtoR.derivative coreNone
            (FunctionRtoR.antiderivative coreNone
              (fSinKxD coreNone))).symbolic_func =
        evalE envW (fSinKxD coreNone).symbolic_func :=
  ⟨rfl,
   c7_derivative_of_antiderivative coreNone sinKxPlusDExpr "x"
     (fSinKxD coreNone) (init_fSinKxD coreNone) c7AntiF rfl envW⟩
